import Mathlib

/-!
Shallow embedding of `rust-plugin` (`src/lib.rs`): lazily-evaluated,
order-independent plugins for extensible types.

Modelling choices:
* Plugin types are identified by a tag type `τ` with decidable equality
  (Rust's `TypeId`); all plugin values live in a common carrier `V`
  (`AnyMap` holds at most one value per type, so the store is a map
  from tags to at most one value).
* The external `AnyMap` collaborator is `τ → Option V` with the contract
  operations `contains`, `find`, `find_mut`, `insert` from the spec.
* An `Extensible` host is a record holding arbitrary further state
  `data : D` together with its `AnyMap`; `extensions` reads the map and
  mutation through `extensions_mut` is explicit state passing.
* `PluginFor::create` is a function `create : τ → Host D τ V → Option V`
  (the factory receives a shared reference to the whole host).
* Each accessor returns `(result, host after the call, number of
  `create` invocations made during the call)`; the counter is the
  instrumentation needed to state the memoization claims.
* Rust references (`&T`, `&mut T`) are modelled by the stored value
  itself; `clone` on plugin values is the identity.
-/

namespace RustPlugin

/-- The external heterogeneous container: at most one value per tag. -/
def AnyMap (τ V : Type) : Type := τ → Option V

namespace AnyMap

variable {τ V : Type} [DecidableEq τ]

/-- `contains::<T>()`: true iff a value of type `T` is stored. -/
def contains (m : AnyMap τ V) (T : τ) : Bool := (m T).isSome

/-- `find::<T>()`: immutable lookup, `none` iff absent. -/
def find (m : AnyMap τ V) (T : τ) : Option V := m T

/-- `find_mut::<T>()`: mutable lookup, `none` iff absent.
In the embedding a mutable reference is the stored value itself. -/
def find_mut (m : AnyMap τ V) (T : τ) : Option V := m T

/-- `insert::<T>(value)`: store `value` under `T`, replacing any prior
entry of that exact type. -/
def insert (m : AnyMap τ V) (T : τ) (v : V) : AnyMap τ V :=
  fun T' => if T' = T then some v else m T'

/-- The empty map (`AnyMap::new()`). -/
def new : AnyMap τ V := fun _ => none

end AnyMap

/-- An `Extensible` host: arbitrary host state `data` together with the
extension storage (`Extensible types must contain a AnyMap`). -/
@[ext]
structure Host (D τ V : Type) where
  data : D
  map : AnyMap τ V

variable {D τ V : Type} [DecidableEq τ]

/-- `Extensible::extensions`: a read-only view of the host's storage. -/
def Host.extensions (h : Host D τ V) : AnyMap τ V := h.map

/-- `self.extensions_mut().insert::<T>(t)`: mutation through
`Extensible::extensions_mut`, as explicit state passing. -/
def Host.insertExt (h : Host D τ V) (T : τ) (v : V) : Host D τ V :=
  { h with map := h.map.insert T v }

/-- The factory contract `PluginFor<Host>`: one `create` per tag, given a
shared reference to the host. -/
def Factory (D τ V : Type) : Type := τ → Host D τ V → Option V

/-- `GetCached::get_ref::<T>()`.  Returns the `Option<&T>` result, the
host after the call, and the number of `PluginFor::create` invocations
made during the call.  Mirrors the source:
check `contains`, on hit return `find`; on miss run `create`, on `None`
return `None` (via `try_option!`), on `Some t` insert `t` and recurse. -/
def get_ref (create : Factory D τ V) (T : τ) (h : Host D τ V) :
    Option V × Host D τ V × Nat :=
  if found : h.extensions.contains T then
    (h.extensions.find T, h, 0)
  else
    match create T h with
    | none => (none, h, 1)
    | some t =>
      let out := get_ref create T (h.insertExt T t)
      (out.1, out.2.1, out.2.2 + 1)
termination_by (if h.extensions.contains T then 0 else 1 : Nat)
decreasing_by simp_all [Host.extensions, Host.insertExt, AnyMap.contains,
  AnyMap.insert]

/-- `GetCached::get_mut::<T>()`: identical shape, the hit branch goes
through `extensions_mut().find_mut()`. -/
def get_mut (create : Factory D τ V) (T : τ) (h : Host D τ V) :
    Option V × Host D τ V × Nat :=
  if found : h.extensions.contains T then
    (h.extensions.find_mut T, h, 0)
  else
    match create T h with
    | none => (none, h, 1)
    | some t =>
      let out := get_mut create T (h.insertExt T t)
      (out.1, out.2.1, out.2.2 + 1)
termination_by (if h.extensions.contains T then 0 else 1 : Nat)
decreasing_by simp_all [Host.extensions, Host.insertExt, AnyMap.contains,
  AnyMap.insert]

/-- `GetCached::get::<T>()` (requires `T: Clone`): the hit branch returns
`find::<T>().map(|c| c.clone())`; `clone` is the identity here. -/
def get (create : Factory D τ V) (T : τ) (h : Host D τ V) :
    Option V × Host D τ V × Nat :=
  if found : h.extensions.contains T then
    ((h.extensions.find T).map (fun c => c), h, 0)
  else
    match create T h with
    | none => (none, h, 1)
    | some t =>
      let out := get create T (h.insertExt T t)
      (out.1, out.2.1, out.2.2 + 1)
termination_by (if h.extensions.contains T then 0 else 1 : Nat)
decreasing_by simp_all [Host.extensions, Host.insertExt, AnyMap.contains,
  AnyMap.insert]

/-- `Get::compute::<T>()`: calls `PluginFor::create(self)` and returns
its result; the host is untouched (`compute` takes `&self`) and exactly
one factory invocation occurs. -/
def compute (create : Factory D τ V) (T : τ) (h : Host D τ V) :
    Option V × Host D τ V × Nat :=
  (create T h, h, 1)

/-!  Fuel-indexed variants of the three cached accessors.  They perform
exactly the source's recursion but spend one unit of fuel per call;
`none` means the fuel ran out before the call returned.  They make the
recursion depth of the source's self-call observable. -/

/-- Fuel-indexed `get_ref`. -/
def get_refF (create : Factory D τ V) (T : τ) :
    Nat → Host D τ V → Option (Option V × Host D τ V × Nat)
  | 0, _ => none
  | fuel + 1, h =>
    if h.extensions.contains T then
      some (h.extensions.find T, h, 0)
    else
      match create T h with
      | none => some (none, h, 1)
      | some t =>
        match get_refF create T fuel (h.insertExt T t) with
        | none => none
        | some out => some (out.1, out.2.1, out.2.2 + 1)

/-- Fuel-indexed `get_mut`. -/
def get_mutF (create : Factory D τ V) (T : τ) :
    Nat → Host D τ V → Option (Option V × Host D τ V × Nat)
  | 0, _ => none
  | fuel + 1, h =>
    if h.extensions.contains T then
      some (h.extensions.find_mut T, h, 0)
    else
      match create T h with
      | none => some (none, h, 1)
      | some t =>
        match get_mutF create T fuel (h.insertExt T t) with
        | none => none
        | some out => some (out.1, out.2.1, out.2.2 + 1)

/-- Fuel-indexed `get`. -/
def getF (create : Factory D τ V) (T : τ) :
    Nat → Host D τ V → Option (Option V × Host D τ V × Nat)
  | 0, _ => none
  | fuel + 1, h =>
    if h.extensions.contains T then
      some ((h.extensions.find T).map (fun c => c), h, 0)
    else
      match create T h with
      | none => some (none, h, 1)
      | some t =>
        match getF create T fuel (h.insertExt T t) with
        | none => none
        | some out => some (out.1, out.2.1, out.2.2 + 1)

/-- The three cached access modes offered by `GetCached`. -/
inductive Mode : Type where
  | byRef : Mode
  | byMut : Mode
  | byClone : Mode
deriving DecidableEq, Repr

/-- One cached accessor call in the requested mode. -/
def runOp (create : Factory D τ V) : Mode → τ → Host D τ V →
    Option V × Host D τ V × Nat
  | .byRef, T, h => get_ref create T h
  | .byMut, T, h => get_mut create T h
  | .byClone, T, h => get create T h

/-- The host after a sequence of cached accessor calls. -/
def runAll (create : Factory D τ V) :
    List (Mode × τ) → Host D τ V → Host D τ V
  | [], h => h
  | (m, T) :: ops, h => runAll create ops ((runOp create m T h).2.1)

/-- Total number of `create` invocations for tag `T` across a sequence
of cached accessor calls.  An accessor call for tag `T'` invokes only
`T'`'s factory, so ops for other tags contribute nothing to `T`'s
count. -/
def createCount (create : Factory D τ V) (T : τ) :
    List (Mode × τ) → Host D τ V → Nat
  | [], _ => 0
  | (m, T') :: ops, h =>
    (if T' = T then (runOp create m T' h).2.2 else 0) +
      createCount create T ops ((runOp create m T' h).2.1)

/-- The state effect of one cached accessor call (mode-independent). -/
def stepHost (create : Factory D τ V) (T : τ) (h : Host D τ V) :
    Host D τ V :=
  if h.extensions.contains T then h
  else
    match create T h with
    | none => h
    | some t => h.insertExt T t

/-!  Concrete instances used to instantiate the theorems: tags are `Nat`,
plugin values are `Nat`, the host carries no further state. -/

/-- An always-succeeding factory family: tag `T` builds the value
`T + 1` (like the test plugins `One(1)` … `Ten(10)`). -/
def exCreate : Factory Unit Nat Nat := fun T _ => some (T + 1)

/-- An always-refusing factory family. -/
def exCreateNone : Factory Unit Nat Nat := fun _ _ => none

/-- A host with an empty store (`Extended::new()`). -/
def exHost : Host Unit Nat Nat := { data := (), map := AnyMap.new }

/-- A host whose store already holds an entry for tag `0`. -/
def exHostStored : Host Unit Nat Nat :=
  { data := (), map := AnyMap.new.insert 0 5 }

/-!  Basic lemmas about the store and the host. -/

@[simp] theorem AnyMap.contains_insert_self (m : AnyMap τ V) (T : τ)
    (v : V) : (m.insert T v).contains T = true := by
  simp [AnyMap.contains, AnyMap.insert]

@[simp] theorem AnyMap.find_insert_self (m : AnyMap τ V) (T : τ)
    (v : V) : (m.insert T v).find T = some v := by
  simp [AnyMap.find, AnyMap.insert]

theorem AnyMap.find_insert_other (m : AnyMap τ V) {T T' : τ}
    (hne : T' ≠ T) (v : V) : (m.insert T v).find T' = m.find T' := by
  simp [AnyMap.find, AnyMap.insert, hne]

theorem AnyMap.contains_eq_isSome_find (m : AnyMap τ V) (T : τ) :
    m.contains T = (m.find T).isSome := rfl

@[simp] theorem Host.extensions_insertExt (h : Host D τ V) (T : τ)
    (v : V) : (h.insertExt T v).extensions = h.extensions.insert T v := rfl

@[simp] theorem Host.data_insertExt (h : Host D τ V) (T : τ) (v : V) :
    (h.insertExt T v).data = h.data := rfl

/-!  Characterizations of the accessors, resolving the tail recursion. -/

/-- Characterization of `get_ref`.  On a hit the stored value is
returned with no factory call; on a miss the factory result is either
passed through as `none` or inserted, and the recursive re-lookup
returns the just-inserted value. -/
theorem get_ref_eq (create : Factory D τ V) (T : τ) (h : Host D τ V) :
    get_ref create T h =
      if h.extensions.contains T then (h.extensions.find T, h, 0)
      else
        match create T h with
        | none => (none, h, 1)
        | some t => (some t, h.insertExt T t, 1) := by
  rw [get_ref.eq_def]
  by_cases hc : h.extensions.contains T
  · simp [hc]
  · simp only [hc, dif_neg, Bool.false_eq_true, not_false_iff, if_neg]
    cases hcr : create T h with
    | none => rfl
    | some t =>
      have hrec : get_ref create T (h.insertExt T t) =
          (some t, h.insertExt T t, 0) := by
        rw [get_ref.eq_def]
        simp [Host.extensions, Host.insertExt, AnyMap.find_insert_self,
          AnyMap.contains_insert_self]
      simp [hrec]

/-- Characterization of `get_mut`, same shape as `get_ref_eq`. -/
theorem get_mut_eq (create : Factory D τ V) (T : τ) (h : Host D τ V) :
    get_mut create T h =
      if h.extensions.contains T then (h.extensions.find_mut T, h, 0)
      else
        match create T h with
        | none => (none, h, 1)
        | some t => (some t, h.insertExt T t, 1) := by
  rw [get_mut.eq_def]
  by_cases hc : h.extensions.contains T
  · simp [hc]
  · simp only [hc, dif_neg, Bool.false_eq_true, not_false_iff, if_neg]
    cases hcr : create T h with
    | none => rfl
    | some t =>
      have hrec : get_mut create T (h.insertExt T t) =
          (some t, h.insertExt T t, 0) := by
        rw [get_mut.eq_def]
        simp [Host.extensions, Host.insertExt, AnyMap.find_insert_self,
          AnyMap.contains_insert_self, AnyMap.find_mut, AnyMap.insert]
      simp [hrec]

/-- Characterization of `get`, same shape (the clone is the identity). -/
theorem get_eq (create : Factory D τ V) (T : τ) (h : Host D τ V) :
    get create T h =
      if h.extensions.contains T then (h.extensions.find T, h, 0)
      else
        match create T h with
        | none => (none, h, 1)
        | some t => (some t, h.insertExt T t, 1) := by
  rw [get.eq_def]
  by_cases hc : h.extensions.contains T
  · simp [hc, Option.map_id]
  · simp only [hc, dif_neg, Bool.false_eq_true, not_false_iff, if_neg]
    cases hcr : create T h with
    | none => rfl
    | some t =>
      have hrec : get create T (h.insertExt T t) =
          (some t, h.insertExt T t, 0) := by
        rw [get.eq_def]
        simp [Host.extensions, Host.insertExt, AnyMap.find_insert_self,
          AnyMap.contains_insert_self]
      simp [hrec]

/-- All three modes share one algorithm: `runOp` has a mode-independent
characterization (`find_mut` and the clone coincide with `find` in the
embedding). -/
theorem runOp_eq (create : Factory D τ V) (m : Mode) (T : τ)
    (h : Host D τ V) :
    runOp create m T h =
      if h.extensions.contains T then (h.extensions.find T, h, 0)
      else
        match create T h with
        | none => (none, h, 1)
        | some t => (some t, h.insertExt T t, 1) := by
  cases m with
  | byRef => exact get_ref_eq create T h
  | byMut => exact get_mut_eq create T h
  | byClone => exact get_eq create T h

/-- The state effect of `runOp` is `stepHost`, whatever the mode. -/
theorem runOp_host (create : Factory D τ V) (m : Mode) (T : τ)
    (h : Host D τ V) : (runOp create m T h).2.1 = stepHost create T h := by
  rw [runOp_eq, stepHost]
  by_cases hc : h.extensions.contains T
  · simp [hc]
  · simp only [hc, if_neg, Bool.false_eq_true, not_false_iff]
    cases create T h <;> simp

/-- Any accessor call leaves the host's `data` unchanged. -/
theorem runOp_data (create : Factory D τ V) (m : Mode) (T : τ)
    (h : Host D τ V) : ((runOp create m T h).2.1).data = h.data := by
  rw [runOp_host, stepHost]
  by_cases hc : h.extensions.contains T
  · simp [hc]
  · simp only [hc, if_neg, Bool.false_eq_true, not_false_iff]
    cases create T h <;> simp

/-- Frame: an accessor call for tag `T` leaves every other tag's stored
entry untouched. -/
theorem runOp_find_other (create : Factory D τ V) (m : Mode) {T T' : τ}
    (hne : T' ≠ T) (h : Host D τ V) :
    ((runOp create m T h).2.1).extensions.find T' =
      h.extensions.find T' := by
  rw [runOp_host, stepHost]
  by_cases hc : h.extensions.contains T
  · simp [hc]
  · simp only [hc, if_neg, Bool.false_eq_true, not_false_iff]
    cases create T h with
    | none => rfl
    | some t =>
      simpa [Host.insertExt, Host.extensions] using
        AnyMap.find_insert_other h.map hne t

/-- An accessor call never removes `T`'s entry. -/
theorem runOp_contains_mono (create : Factory D τ V) (m : Mode) (T T' : τ)
    (h : Host D τ V) (hc : h.extensions.contains T = true) :
    ((runOp create m T' h).2.1).extensions.contains T = true := by
  rw [runOp_host, stepHost]
  by_cases hc' : h.extensions.contains T'
  · simpa [hc']
  · simp only [hc', if_neg, Bool.false_eq_true, not_false_iff]
    cases create T' h with
    | none => simpa
    | some t =>
      simp only [Host.insertExt, Host.extensions, AnyMap.contains,
        AnyMap.insert] at *
      by_cases hTT : T = T' <;> simp [hTT, hc]

/-- If a cached accessor returns a value, that value is stored in the
returned host under the requested tag. -/
theorem get_ref_stored (create : Factory D τ V) (T : τ) (h : Host D τ V)
    {v : V} (hv : (get_ref create T h).1 = some v) :
    ((get_ref create T h).2.1).extensions.find T = some v := by
  rw [get_ref_eq] at hv ⊢
  by_cases hc : h.extensions.contains T
  · simpa [hc] using hv
  · simp only [hc, if_neg, Bool.false_eq_true, not_false_iff] at hv ⊢
    cases hcr : create T h with
    | none => simp [hcr] at hv
    | some t =>
      simp only [hcr] at hv ⊢
      simpa using hv

/-- Once `T` is stored, a whole sequence of accessor calls makes no
`create` invocation for `T` at all. -/
theorem createCount_of_contains (create : Factory D τ V) (T : τ)
    (ops : List (Mode × τ)) :
    ∀ h : Host D τ V, h.extensions.contains T = true →
      createCount create T ops h = 0 := by
  induction ops with
  | nil => intro h _; rfl
  | cons p ops ih =>
    intro h hc
    obtain ⟨m, T'⟩ := p
    have hmono := runOp_contains_mono create m T T' h hc
    by_cases hTT : T' = T
    · subst hTT
      have hz : (runOp create m T' h).2.2 = 0 := by
        rw [runOp_eq]; simp [hc]
      simp [createCount, hz, ih _ hmono]
    · simp [createCount, hTT, ih _ hmono]

/-- With a factory for `T` that never refuses, a whole sequence of
accessor calls invokes `T`'s factory at most once (zero times when `T`
is already stored). -/
theorem createCount_le (create : Factory D τ V) (T : τ)
    (hsucc : ∀ h : Host D τ V, (create T h).isSome)
    (ops : List (Mode × τ)) :
    ∀ h : Host D τ V,
      createCount create T ops h ≤
        if h.extensions.contains T then 0 else 1 := by
  induction ops with
  | nil => intro h; rw [show createCount create T [] h = 0 from rfl]; split <;> simp
  | cons p ops ih =>
    intro h
    obtain ⟨m, T'⟩ := p
    by_cases hTT : T' = T
    · subst hTT
      by_cases hc : h.extensions.contains T'
      · have hop : runOp create m T' h = (h.extensions.find T', h, 0) := by
          rw [runOp_eq]; simp [hc]
        have := ih h
        simp only [createCount, hop, hc, if_pos] at this ⊢
        simpa using this
      · obtain ⟨t, ht⟩ := Option.isSome_iff_exists.mp (hsucc h)
        have hop : runOp create m T' h = (some t, h.insertExt T' t, 1) := by
          rw [runOp_eq]; simp [hc, ht]
        have hcontains : (h.insertExt T' t).extensions.contains T' = true := by
          simp [Host.insertExt, Host.extensions]
        have h0 := createCount_of_contains create T' ops _ hcontains
        simp [createCount, hop, h0, hc]
    · have hfind := runOp_find_other create m
        (show T ≠ T' from fun hh => hTT hh.symm) h
      have hcont : ((runOp create m T' h).2.1).extensions.contains T =
          h.extensions.contains T := by
        rw [AnyMap.contains_eq_isSome_find, AnyMap.contains_eq_isSome_find,
          hfind]
      have hrest := ih ((runOp create m T' h).2.1)
      rw [hcont] at hrest
      simpa [createCount, hTT] using hrest

/-- `stepHost` preserves the host's `data`. -/
theorem stepHost_data (create : Factory D τ V) (T : τ) (h : Host D τ V) :
    (stepHost create T h).data = h.data := by
  rw [stepHost]
  by_cases hc : h.extensions.contains T
  · simp [hc]
  · simp only [hc, if_neg, Bool.false_eq_true, not_false_iff]
    cases create T h <;> simp

/-- One accessor call, pointwise on the store: the requested tag gets
the factory value when it was absent, every other entry is untouched. -/
theorem stepHost_find (create : Factory D τ V) (T T' : τ)
    (h : Host D τ V) :
    (stepHost create T h).extensions.find T' =
      if T' = T ∧ (h.extensions.find T).isNone then create T h
      else h.extensions.find T' := by
  rw [stepHost]
  by_cases hc : h.extensions.contains T
  · have hne : (h.extensions.find T).isNone = false := by
      rw [AnyMap.contains_eq_isSome_find] at hc
      cases hfind : h.extensions.find T
      · rw [hfind] at hc; simp at hc
      · simp
    simp [hc, hne]
  · have hnone : h.extensions.find T = none := by
      rw [AnyMap.contains_eq_isSome_find] at hc
      simpa using hc
    have hnone' : h.map T = none := hnone
    simp only [hc, if_neg, Bool.false_eq_true, not_false_iff]
    cases hcr : create T h with
    | none =>
      by_cases hTT : T' = T
      · subst hTT; simp [hnone, hnone', hcr, AnyMap.find, Host.extensions]
      · simp [hTT]
    | some t =>
      by_cases hTT : T' = T
      · subst hTT
        simp [hnone, hnone', Host.insertExt, Host.extensions, AnyMap.find,
          AnyMap.insert]
      · simp only [hTT, false_and, if_neg, not_false_iff]
        simpa [Host.insertExt, Host.extensions] using
          AnyMap.find_insert_other h.map hTT t

/-- Unfolding one accessor call at the head of a sequence. -/
theorem runAll_cons (create : Factory D τ V) (m : Mode) (T : τ)
    (ops : List (Mode × τ)) (h : Host D τ V) :
    runAll create ((m, T) :: ops) h =
      runAll create ops (stepHost create T h) := by
  simp only [runAll, runOp_host]

/-- A sequence of accessor calls preserves the host's `data`. -/
theorem runAll_data (create : Factory D τ V) (ops : List (Mode × τ)) :
    ∀ h : Host D τ V, (runAll create ops h).data = h.data := by
  induction ops with
  | nil => intro h; rfl
  | cons p ops ih =>
    intro h
    obtain ⟨m, T⟩ := p
    rw [runAll_cons, ih, stepHost_data]

/-- Final store after a sequence of accessor calls, pointwise, for
factories that read only the host's `data` (no factory reads another
plugin's cached value): a tag requested at least once while absent ends
at its factory value, every other tag keeps its initial entry.  The
right-hand side does not depend on the order of `ops`. -/
theorem runAll_find (create : Factory D τ V)
    (hcreate : ∀ (T : τ) (h₁ h₂ : Host D τ V), h₁.data = h₂.data →
      create T h₁ = create T h₂)
    (ops : List (Mode × τ)) :
    ∀ (h : Host D τ V) (T' : τ),
      (runAll create ops h).extensions.find T' =
        if T' ∈ ops.map Prod.snd ∧ (h.extensions.find T').isNone
        then create T' h else h.extensions.find T' := by
  induction ops with
  | nil => intro h T'; simp [runAll]
  | cons p ops ih =>
    intro h T'
    obtain ⟨m, T⟩ := p
    rw [runAll_cons, ih]
    have hcr : create T' (stepHost create T h) = create T' h :=
      hcreate T' _ _ (stepHost_data create T h)
    rw [stepHost_find, hcr]
    by_cases h1 : T' = T
    · subst h1
      by_cases h2 : h.extensions.find T' = none
      · cases hcc : create T' h with
        | none => simp [h2, hcc, List.mem_cons]
        | some t => simp [h2, hcc, List.mem_cons]
      · simp [h2, List.mem_cons]
    · have hinner : (if T' = T ∧ (h.extensions.find T).isNone = true
          then create T h else h.extensions.find T') =
          h.extensions.find T' := by
        simp [h1]
      rw [hinner]
      by_cases h2 : h.extensions.find T' = none
      · rw [h2]
        exact if_congr (by simp [List.mem_cons, h1]) rfl rfl
      · simp [h1, h2, List.mem_cons]

/-!  The claims. -/

/-- C1 — Memoization: for every Extensible host and plugin tag whose
request returns a value (in particular whenever the factory succeeds on
the first call), a second consecutive `get_ref::<T>()` call returns the
same stored value, leaves the host unchanged, and does not invoke the
factory again. -/
theorem C1_memoization (create : Factory D τ V) (T : τ) (h : Host D τ V)
    (v : V) (hv : (get_ref create T h).1 = some v) :
    get_ref create T ((get_ref create T h).2.1) =
      (some v, (get_ref create T h).2.1, 0) := by
  have hstored := get_ref_stored create T h hv
  have hc : ((get_ref create T h).2.1).extensions.contains T = true := by
    rw [AnyMap.contains_eq_isSome_find, hstored]; rfl
  rw [get_ref_eq]
  simp [hc, hstored]

/-- Witness for C1: `A::create` unconditionally returns `Some 1`; the
first `get_ref` on an empty host yields `Some 1`, and the second call
returns the same stored value with zero factory invocations. -/
theorem C1_memoization_witness :
    (get_ref exCreate 0 exHost).1 = some 1 ∧
    get_ref exCreate 0 ((get_ref exCreate 0 exHost).2.1) =
      (some 1, (get_ref exCreate 0 exHost).2.1, 0) := by
  have h1 : (get_ref exCreate 0 exHost).1 = some 1 := by
    rw [get_ref_eq]; rfl
  exact ⟨h1, C1_memoization exCreate 0 exHost 1 h1⟩

/-- C2 — Failure atomicity: when `T` is absent and its factory refuses,
`get_ref`, `get_mut` and `get` all return `None`, invoke the factory
once, and leave the store unchanged; in particular `contains::<T>()` is
still `false` afterwards. -/
theorem C2_failure_atomicity (create : Factory D τ V) (T : τ)
    (h : Host D τ V) (habs : h.extensions.contains T = false)
    (hnone : create T h = none) :
    get_ref create T h = (none, h, 1) ∧
    get_mut create T h = (none, h, 1) ∧
    get create T h = (none, h, 1) ∧
    ((get_mut create T h).2.1).extensions.contains T = false := by
  have h1 : get_ref create T h = (none, h, 1) := by
    rw [get_ref_eq]; simp [habs, hnone]
  have h2 : get_mut create T h = (none, h, 1) := by
    rw [get_mut_eq]; simp [habs, hnone]
  have h3 : get create T h = (none, h, 1) := by
    rw [get_eq]; simp [habs, hnone]
  exact ⟨h1, h2, h3, by rw [h2]; exact habs⟩

/-- Witness for C2: `B::create` always refuses; on an empty host every
accessor yields `None` and the store still reports absence. -/
theorem C2_failure_atomicity_witness :
    exHost.extensions.contains 0 = false ∧ exCreateNone 0 exHost = none ∧
    (get_ref exCreateNone 0 exHost = (none, exHost, 1) ∧
     get_mut exCreateNone 0 exHost = (none, exHost, 1) ∧
     get exCreateNone 0 exHost = (none, exHost, 1) ∧
     ((get_mut exCreateNone 0 exHost).2.1).extensions.contains 0 = false) :=
  ⟨rfl, rfl, C2_failure_atomicity exCreateNone 0 exHost rfl rfl⟩

/-- C3 — Retry on failure (no negative caching): after a cached
accessor found `T` absent and `create` returned `None`, an identical
request on the (unchanged) resulting host invokes `create` again — each
of the two calls makes exactly one factory invocation, in every mode. -/
theorem C3_retry_on_failure (create : Factory D τ V) (T : τ)
    (h : Host D τ V) (habs : h.extensions.contains T = false)
    (hnone : create T h = none) :
    ((get_ref create T h).2.2 = 1 ∧
      (get_ref create T ((get_ref create T h).2.1)).2.2 = 1) ∧
    ((get_mut create T h).2.2 = 1 ∧
      (get_mut create T ((get_mut create T h).2.1)).2.2 = 1) ∧
    ((get create T h).2.2 = 1 ∧
      (get create T ((get create T h).2.1)).2.2 = 1) := by
  have h1 : get_ref create T h = (none, h, 1) := by
    rw [get_ref_eq]; simp [habs, hnone]
  have h2 : get_mut create T h = (none, h, 1) := by
    rw [get_mut_eq]; simp [habs, hnone]
  have h3 : get create T h = (none, h, 1) := by
    rw [get_eq]; simp [habs, hnone]
  refine ⟨⟨by rw [h1], ?_⟩, ⟨by rw [h2], ?_⟩, ⟨by rw [h3], ?_⟩⟩
  · rw [h1, h1]
  · rw [h2, h2]
  · rw [h3, h3]

/-- Witness for C3: with an always-refusing factory on an empty host,
both consecutive calls invoke the factory. -/
theorem C3_retry_on_failure_witness :
    exHost.extensions.contains 0 = false ∧ exCreateNone 0 exHost = none ∧
    (((get_ref exCreateNone 0 exHost).2.2 = 1 ∧
      (get_ref exCreateNone 0
        ((get_ref exCreateNone 0 exHost).2.1)).2.2 = 1) ∧
     ((get_mut exCreateNone 0 exHost).2.2 = 1 ∧
      (get_mut exCreateNone 0
        ((get_mut exCreateNone 0 exHost).2.1)).2.2 = 1) ∧
     ((get exCreateNone 0 exHost).2.2 = 1 ∧
      (get exCreateNone 0
        ((get exCreateNone 0 exHost).2.1)).2.2 = 1)) :=
  ⟨rfl, rfl, C3_retry_on_failure exCreateNone 0 exHost rfl rfl⟩

/-- Counterexample to C4 as stated: with an always-refusing factory,
two consecutive `get_ref::<T>()` calls on the same host invoke `create`
twice for the same `(Host, tag)` pair — the unconditional "at most once
per pair over the Store's lifetime" bound fails (retry on failure is
deliberate, cf. C3). -/
theorem C4_counterexample :
    createCount exCreateNone 0 [(Mode.byRef, 0), (Mode.byRef, 0)]
      exHost = 2 := by
  have hop : runOp exCreateNone Mode.byRef 0 exHost = (none, exHost, 1) := by
    rw [runOp_eq]; rfl
  simp [createCount, hop]

/-- C4 (amended) — At-most-once create on success: across any sequence
of cached accessor calls, once `T` is stored no call ever invokes `T`'s
factory again; and when `T`'s factory never refuses, the whole sequence
invokes it at most once. -/
theorem C4_at_most_once (create : Factory D τ V) (T : τ)
    (ops : List (Mode × τ)) (h : Host D τ V) :
    (h.extensions.contains T = true → createCount create T ops h = 0) ∧
    ((∀ h' : Host D τ V, (create T h').isSome) →
      createCount create T ops h ≤ 1) := by
  refine ⟨fun hc => createCount_of_contains create T ops h hc, ?_⟩
  intro hsucc
  refine le_trans (createCount_le create T hsucc ops h) ?_
  split <;> omega

/-- Witness for C4 (amended): a stored tag is never rebuilt over a
sequence of calls, and an always-succeeding factory runs at most once
over a sequence that requests it twice. -/
theorem C4_at_most_once_witness :
    exHostStored.extensions.contains 0 = true ∧
    createCount exCreate 0 [(Mode.byRef, 0), (Mode.byClone, 0)]
      exHostStored = 0 ∧
    (∀ h' : Host Unit Nat Nat, (exCreate 0 h').isSome) ∧
    createCount exCreate 0 [(Mode.byRef, 0), (Mode.byClone, 0)]
      exHost ≤ 1 :=
  ⟨rfl,
   (C4_at_most_once exCreate 0 [(Mode.byRef, 0), (Mode.byClone, 0)]
      exHostStored).1 rfl,
   fun _ => rfl,
   (C4_at_most_once exCreate 0 [(Mode.byRef, 0), (Mode.byClone, 0)]
      exHost).2 (fun _ => rfl)⟩

/-- C5 — Absence propagation: each cached accessor returns `None`
exactly when `T` is absent and `create` refuses, and `compute` returns
`None` exactly when `create` refuses; absence is the only failure
outcome and is passed through unchanged. -/
theorem C5_absence_propagation (create : Factory D τ V) (T : τ)
    (h : Host D τ V) :
    ((get_ref create T h).1 = none ↔
      h.extensions.contains T = false ∧ create T h = none) ∧
    ((get_mut create T h).1 = none ↔
      h.extensions.contains T = false ∧ create T h = none) ∧
    ((get create T h).1 = none ↔
      h.extensions.contains T = false ∧ create T h = none) ∧
    ((compute create T h).1 = none ↔ create T h = none) := by
  have hhit : h.extensions.contains T = true →
      h.extensions.find T ≠ none := by
    intro hc
    rw [AnyMap.contains_eq_isSome_find] at hc
    exact Option.isSome_iff_ne_none.mp hc
  refine ⟨?_, ?_, ?_, Iff.rfl⟩ <;>
    [rw [get_ref_eq]; rw [get_mut_eq]; rw [get_eq]] <;>
  · by_cases hc : h.extensions.contains T
    · simp only [hc, if_pos]
      constructor
      · intro hfind; exact absurd hfind (hhit hc)
      · rintro ⟨hfalse, -⟩; simp at hfalse
    · cases hcr : create T h with
      | none => simp [hc, hcr]
      | some t => simp [hc, hcr]

/-- C6 — Cached-access algorithm shape: `get_ref::<T>()` first checks
`contains`, on a hit returns `find`; on a miss calls `create`, and on
`Some value` inserts the value and returns a fresh lookup on the
updated store — which yields exactly the just-inserted value. -/
theorem C6_algorithm_shape (create : Factory D τ V) (T : τ)
    (h : Host D τ V) :
    (get_ref create T h =
      if h.extensions.contains T then (h.extensions.find T, h, 0)
      else
        match create T h with
        | none => (none, h, 1)
        | some v =>
          ((h.insertExt T v).extensions.find T, h.insertExt T v, 1)) ∧
    ∀ v : V, (h.insertExt T v).extensions.find T = some v := by
  constructor
  · rw [get_ref_eq]
    by_cases hc : h.extensions.contains T
    · simp [hc]
    · cases hcr : create T h with
      | none => simp [hc, hcr]
      | some v => simp [hc, hcr]
  · intro v
    simp

/-- C7 — Uncached access never caches: `compute::<T>()` returns exactly
`PluginFor::create(host)`, changes nothing, and two consecutive calls
each invoke the factory once and return the same result. -/
theorem C7_uncached_access (create : Factory D τ V) (T : τ)
    (h : Host D τ V) :
    compute create T h = (create T h, h, 1) ∧
    compute create T ((compute create T h).2.1) = (create T h, h, 1) :=
  ⟨rfl, rfl⟩

/-- C8 — Order independence: with factories that read only the host's
own state (never another plugin's cached value), requesting distinct
plugin tags through cached accessors in any permutation produces the
same final host — each tag's stored value is identical regardless of
request order. -/
theorem C8_order_independence (create : Factory D τ V)
    (hcreate : ∀ (T : τ) (h₁ h₂ : Host D τ V), h₁.data = h₂.data →
      create T h₁ = create T h₂)
    (l₁ l₂ : List (Mode × τ)) (hdistinct : (l₁.map Prod.snd).Nodup)
    (hperm : l₁.Perm l₂) (h : Host D τ V) :
    runAll create l₁ h = runAll create l₂ h := by
  apply Host.ext
  · rw [runAll_data, runAll_data]
  · funext T'
    have hmem : (T' ∈ l₁.map Prod.snd) ↔ (T' ∈ l₂.map Prod.snd) :=
      (hperm.map Prod.snd).mem_iff
    have e₁ := runAll_find create hcreate l₁ h T'
    have e₂ := runAll_find create hcreate l₂ h T'
    rw [show (runAll create l₁ h).map T' =
        (runAll create l₁ h).extensions.find T' from rfl, e₁,
      show (runAll create l₂ h).map T' =
        (runAll create l₂ h).extensions.find T' from rfl, e₂]
    exact if_congr (and_congr_left fun _ => hmem) rfl rfl

/-- Witness for C8: two tags requested in both orders on an empty host
give identical final hosts. -/
theorem C8_order_independence_witness :
    (∀ (T : Nat) (h₁ h₂ : Host Unit Nat Nat), h₁.data = h₂.data →
      exCreate T h₁ = exCreate T h₂) ∧
    (([(Mode.byRef, 0), (Mode.byMut, 1)] :
        List (Mode × Nat)).map Prod.snd).Nodup ∧
    ([(Mode.byRef, 0), (Mode.byMut, 1)] : List (Mode × Nat)).Perm
      [(Mode.byMut, 1), (Mode.byRef, 0)] ∧
    runAll exCreate [(Mode.byRef, 0), (Mode.byMut, 1)] exHost =
      runAll exCreate [(Mode.byMut, 1), (Mode.byRef, 0)] exHost :=
  ⟨fun _ _ _ _ => rfl, by decide, by decide,
   C8_order_independence exCreate (fun _ _ _ _ => rfl) _ _ (by decide)
     (by decide) exHost⟩

/-- C9 — Frame / growth correctness: a cached accessor call for tag `T`
leaves every other tag's stored entry unchanged, so previously inserted
values keep being retrieved intact as more plugin types are added. -/
theorem C9_frame (create : Factory D τ V) (m : Mode) (T T' : τ)
    (h : Host D τ V) (hne : T' ≠ T) :
    ((runOp create m T h).2.1).extensions.find T' =
      h.extensions.find T' :=
  runOp_find_other create m hne h

/-- Witness for C9: inserting tag `1` does not disturb the entry stored
for tag `0`. -/
theorem C9_frame_witness :
    (0 : Nat) ≠ 1 ∧
    ((runOp exCreate Mode.byRef 1 exHostStored).2.1).extensions.find 0 =
      exHostStored.extensions.find 0 :=
  ⟨by decide, C9_frame exCreate Mode.byRef 1 0 exHostStored (by decide)⟩

/-- C10 — Termination of the recursive re-lookup: because `insert`
makes `contains` true, the self-call of each cached accessor recurses to
depth at most one: with two units of fuel (the initial call plus one
re-lookup) the fuel-indexed accessors complete, and they return exactly
the accessors' results. -/
theorem C10_termination (create : Factory D τ V) (T : τ)
    (h : Host D τ V) :
    get_refF create T 2 h = some (get_ref create T h) ∧
    get_mutF create T 2 h = some (get_mut create T h) ∧
    getF create T 2 h = some (get create T h) := by
  refine ⟨?_, ?_, ?_⟩
  · rw [get_ref_eq]
    by_cases hc : h.extensions.contains T
    · simp [get_refF, hc]
    · cases hcr : create T h with
      | none => simp [get_refF, hc, hcr]
      | some t => simp [get_refF, hc, hcr, apply_ite]
  · rw [get_mut_eq]
    by_cases hc : h.extensions.contains T
    · simp [get_mutF, hc]
    · cases hcr : create T h with
      | none => simp [get_mutF, hc, hcr]
      | some t =>
        have hmap : h.map T = none := Option.not_isSome_iff_eq_none.mp hc
        simp [get_mutF, hc, hcr, AnyMap.find_mut, Host.insertExt,
          Host.extensions, AnyMap.insert, AnyMap.contains, apply_ite, hmap]
  · rw [get_eq]
    by_cases hc : h.extensions.contains T
    · simp [getF, hc]
    · cases hcr : create T h with
      | none => simp [getF, hc, hcr]
      | some t => simp [getF, hc, hcr, apply_ite]

end RustPlugin
